import Mathlib

/-!
Verification of the pacroxy forward proxy (src/unnamed/part_000) against its
natural-language specification.  The Go source is shallowly embedded: the
header sanitizer (removeConnectionHeaders / removeHopHeaders / prune), the
CONNECT handler (handleConnect) with its dial-failover loop, the forwarding
handler (handleHTTP) with its round-trip failover loop, and one tick of the
reload loop (watch).  External collaborators (gpac rule resolution, the
dialers, net/http hijacking) enter as function-valued environment parameters;
the handlers are deterministic functions of request plus environment.
-/

namespace Pacroxy

/-! ## Go http.Header, canonical MIME keys

A Go header is a map from canonical-form keys to lists of values; we embed it
as an association list.  canonicalKey mirrors textproto.CanonicalMIMEHeaderKey:
a key with a byte outside the token alphabet is returned unchanged, otherwise
each letter is upper-cased at the start and after a hyphen and lower-cased
elsewhere. -/

/-- Token bytes legal in a MIME header key (Go textproto validHeaderFieldByte):
ASCII letters and digits plus the RFC 7230 token specials, given by code point. -/
def validHeaderFieldByte (c : Char) : Bool :=
  c.isAlphanum ||
    [33, 35, 36, 37, 38, 39, 42, 43, 45, 46, 94, 95, 96, 124, 126].contains c.toNat

/-- Case-normalisation pass of CanonicalMIMEHeaderKey: upper-case at the start
and after each hyphen (code point 45), lower-case elsewhere. -/
def canonChars : Bool → List Char → List Char
  | _, [] => []
  | up, c :: cs =>
    let d := if up then c.toUpper else c.toLower
    d :: canonChars (d == Char.ofNat 45) cs

/-- Go textproto.CanonicalMIMEHeaderKey. -/
def canonicalKey (s : String) : String :=
  if s.data.all validHeaderFieldByte then String.mk (canonChars true s.data) else s

/-- Go net/http Header: canonical keys mapped to value lists. -/
abbrev Header := List (String × List String)

/-- Go strings.Split(s, comma-separator), written as structural recursion over
the character list so that the kernel can evaluate it. -/
def splitCommaAux : List Char → List Char → List String
  | [], acc => [String.mk acc.reverse]
  | c :: cs, acc =>
    if c == Char.ofNat 44 then String.mk acc.reverse :: splitCommaAux cs []
    else splitCommaAux cs (c :: acc)

/-- Go strings.Split(s, ","): the empty string yields one empty field. -/
def splitComma (s : String) : List String :=
  splitCommaAux s.data []

/-- Go strings.TrimSpace, written over the character list.  It differs from Go
only on exotic Unicode spaces, which cannot occur in a parsed header value. -/
def trimSpace (s : String) : String :=
  String.mk (((s.data.dropWhile Char.isWhitespace).reverse.dropWhile
    Char.isWhitespace).reverse)

/-- First value of a value list, or the empty string (Go textproto Get on a
present key). -/
def firstVal : List String → String
  | [] => ""
  | v :: _ => v

/-- Header.Get: first value stored under the first entry carrying the
canonical form of the key, or the empty string when there is none (also when
the value list is empty). -/
def hGet : Header → String → String
  | [], _ => ""
  | e :: t, k => if e.1 == canonicalKey k then firstVal e.2 else hGet t k

/-- Header.Del: drop every entry stored under the canonical form of the key. -/
def hDel (h : Header) (k : String) : Header :=
  h.filter (fun e => e.1 != canonicalKey k)

/-- Whether the header holds an entry under the canonical form of the key. -/
def hContains (h : Header) (k : String) : Bool :=
  h.any (fun e => e.1 == canonicalKey k)

/-! ## The header sanitizer (source lines 59-99) -/

/-- Hop-by-hop headers, exactly the fixed list of the source. -/
def hopHeaders : List String :=
  ["Connection", "Keep-Alive", "Proxy-Authenticate", "Proxy-Authorization",
   "Te", "Trailers", "Transfer-Encoding", "Upgrade"]

/-- removeConnectionHeaders: delete every header named in the comma-list of
the first Connection value (Go h.Get returns only the first value); tokens
are trimmed and empty tokens skipped. -/
def removeConnectionHeaders (h : Header) : Header :=
  let c := hGet h "Connection"
  if c = "" then h
  else
    (splitComma c).foldl
      (fun acc f =>
        let f := trimSpace f
        if f = "" then acc else hDel acc f) h

/-- removeHopHeaders: delete each fixed hop-by-hop name whose first value is
nonempty, keeping a Te header whose first value is exactly trailers. -/
def removeHopHeaders (h : Header) : Header :=
  hopHeaders.foldl
    (fun acc k =>
      let hv := hGet acc k
      if hv = "" then acc
      else if k = "Te" ∧ hv = "trailers" then acc
      else hDel acc k) h

/-- prune: the full sanitizer, Connection-listed names first, fixed set second. -/
def prune (h : Header) : Header :=
  removeHopHeaders (removeConnectionHeaders h)

/-- Keep-predicate of removeConnectionHeaders: a key survives when no trimmed
nonempty token of the first Connection value canonicalises to it. -/
def connKeep (h : Header) (k : String) : Bool :=
  (splitComma (hGet h "Connection")).all
    (fun t => trimSpace t == "" || k != canonicalKey (trimSpace t))

/-- Keep-predicate of removeHopHeaders over the original header: a key
survives when, for every fixed hop name it equals, that name reads as empty
or is Te reading exactly trailers. -/
def hopKeep (h : Header) (k : String) : Bool :=
  hopHeaders.all
    (fun q => k != q || hGet h q == "" || (q == "Te" && hGet h q == "trailers"))

/-! ## Candidates and the client-visible response stream

A gpac Proxy is abstracted to its capability tag; IsDirect and IsSOCKS of the
source become tests on that tag.  Connections are numbered abstractly.

The client side of a response is a list of wire writes produced through a
ResponseWriter state: net/http writes a status line on the first WriteHeader
call only — a later call is superfluous and puts nothing on the wire — while
the message body handed to http.Error is always written. -/

/-- Capability tag of a candidate (gpac proxy type). -/
inductive Capability
  | direct
  | httpProxy
  | socksProxy
deriving DecidableEq

/-- One upstream candidate, as handleConnect and handleHTTP consume it. -/
structure Proxy where
  cap : Capability
deriving DecidableEq

/-- A wire-level write that reaches the client. -/
inductive Write
  | statusLine (code : Nat)
  | bodyChunk (text : String)
deriving DecidableEq

/-- ResponseWriter state: whether a status line has been sent, and the wire. -/
structure RW where
  wroteHeader : Bool
  writes : List Write
deriving DecidableEq

/-- The fresh ResponseWriter of a new request. -/
def RW.init : RW :=
  ⟨false, []⟩

/-- net/http WriteHeader: the first call emits the status line, any further
call is superfluous and emits nothing. -/
def RW.writeHeader (w : RW) (code : Nat) : RW :=
  if w.wroteHeader then w
  else ⟨true, w.writes ++ [Write.statusLine code]⟩

/-- net/http http.Error: WriteHeader(code), then the message and a newline as
body text (the body is written even when the status line was suppressed). -/
def RW.httpError (w : RW) (msg : String) (code : Nat) : RW :=
  let w1 := w.writeHeader code
  ⟨w1.wroteHeader, w1.writes ++ [Write.bodyChunk (msg ++ "\n")]⟩

/-- The status lines among a list of wire writes. -/
def statusLines (ws : List Write) : List Nat :=
  ws.filterMap (fun w =>
    match w with
    | Write.statusLine c => some c
    | Write.bodyChunk _ => none)

/-! ## handleConnect (source lines 101-165)

The environment carries the external collaborators: the resolution call of
the active pac source, one dialer per candidate index (each invocation is
also handed the address string the handler passes, so that the theorems can
speak about which address was dialed), and the hijack facility of the serving
layer.  Connections are abstract numbers.  The handler returns every
observable of one request: the lookup URL handed to resolution, the dial
attempts in order, the retained candidate and connection, the started tunnel,
and the wire writes.  The source never closes the dialed connection outside
the two pipe goroutines, so a result with dst set and no tunnel is a leaked
connection. -/

/-- External collaborators of one CONNECT request. -/
structure ConnectEnv where
  findProxy : String → Except String (List Proxy)
  dial : Nat → String → Except String Nat
  hijackSupported : Bool
  hijack : Except String Nat

/-- A CONNECT request: r.Host as received, and the host and port that
net.SplitHostPort extracted from it. -/
structure ConnReq where
  rawHost : String
  host : String
  port : String

/-- State of the dial-failover loop after it finishes: the values of the Go
variables proxy and err, the open connection and winning index if a dial
succeeded, and the indices and addresses dialed, in order. -/
structure DialLoopResult where
  proxyVar : Option Proxy
  errVar : Option String
  dst : Option Nat
  winIdx : Option Nat
  dialedIdx : List Nat
  dialedAddr : List String
deriving DecidableEq

/-- The loop of source lines 122-131: iterate candidates in order, dial each
at the given address, log and continue on error, break on the first success.
pv and ev carry the current values of the Go variables proxy and err. -/
def dialLoopAux (dial : Nat → String → Except String Nat) (addr : String) :
    List Proxy → Nat → Option Proxy → Option String → DialLoopResult
  | [], _, pv, ev => ⟨pv, ev, none, none, [], []⟩
  | p :: rest, i, _, _ =>
    match dial i addr with
    | Except.error e =>
      let r := dialLoopAux dial addr rest (i + 1) (some p) (some e)
      ⟨r.proxyVar, r.errVar, r.dst, r.winIdx, i :: r.dialedIdx, addr :: r.dialedAddr⟩
    | Except.ok c => ⟨some p, none, some c, some i, [i], [addr]⟩

/-- The dial loop started on the full candidate list with proxy and err nil. -/
def dialLoop (dial : Nat → String → Except String Nat) (addr : String)
    (ps : List Proxy) : DialLoopResult :=
  dialLoopAux dial addr ps 0 none none

/-- The error carried by a dial outcome, if any. -/
def errOf : Except String Nat → Option String
  | Except.error e => some e
  | Except.ok _ => none

/-- Everything observable about one handled CONNECT request. -/
structure ConnectResult where
  lookupURL : String
  dialedIdx : List Nat
  dialedAddr : List String
  winIdx : Option Nat
  winner : Option Proxy
  dst : Option Nat
  tunnel : Option (Nat × Nat)
  writes : List Write
deriving DecidableEq

/-- handleConnect: build the lookup URL (the port segment is dropped exactly
for port 443), resolve, dial with failover, 503 on resolution failure, on all
dials failing (with the last dial error as message) and on an empty candidate
list; write 200 first for a Direct or SOCKS winner; then 500 when hijacking
is unsupported, 503 when the hijack fails, else start the tunnel. -/
def handleConnect (env : ConnectEnv) (r : ConnReq) : ConnectResult :=
  let url :=
    if r.port = "443" then "https://" ++ r.host ++ "/"
    else "https://" ++ r.host ++ ":" ++ r.port ++ "/"
  match env.findProxy url with
  | Except.error e =>
    { lookupURL := url, dialedIdx := [], dialedAddr := [], winIdx := none,
      winner := none, dst := none, tunnel := none,
      writes := (RW.httpError RW.init e 503).writes }
  | Except.ok proxies =>
    let L := dialLoop env.dial r.rawHost proxies
    match L.errVar with
    | some e =>
      { lookupURL := url, dialedIdx := L.dialedIdx, dialedAddr := L.dialedAddr,
        winIdx := none, winner := none, dst := none, tunnel := none,
        writes := (RW.httpError RW.init e 503).writes }
    | none =>
      match L.proxyVar with
      | none =>
        { lookupURL := url, dialedIdx := L.dialedIdx, dialedAddr := L.dialedAddr,
          winIdx := none, winner := none, dst := none, tunnel := none,
          writes := (RW.httpError RW.init "No Proxy Available" 503).writes }
      | some p =>
        let w1 :=
          if p.cap = Capability.direct ∨ p.cap = Capability.socksProxy then
            RW.writeHeader RW.init 200
          else RW.init
        if env.hijackSupported = false then
          { lookupURL := url, dialedIdx := L.dialedIdx, dialedAddr := L.dialedAddr,
            winIdx := L.winIdx, winner := some p, dst := L.dst, tunnel := none,
            writes := (RW.httpError w1 "Hijacking not supported" 500).writes }
        else
          match env.hijack with
          | Except.error e =>
            { lookupURL := url, dialedIdx := L.dialedIdx, dialedAddr := L.dialedAddr,
              winIdx := L.winIdx, winner := some p, dst := L.dst, tunnel := none,
              writes := (RW.httpError w1 e 503).writes }
          | Except.ok src =>
            { lookupURL := url, dialedIdx := L.dialedIdx, dialedAddr := L.dialedAddr,
              winIdx := L.winIdx, winner := some p, dst := L.dst,
              tunnel := some (L.dst.getD 0, src),
              writes := w1.writes }

/-! ## handleHTTP (source lines 173-205)

The round trip of a candidate is a function of the candidate index and of the
request body bytes still unread at the moment of the call: the source hands
the very same request object — and so the same partially consumed body
stream — to every attempt, which the model renders by threading the
remaining body through the loop.  A round trip reports how many body bytes it
consumed together with its result. -/

/-- A response from an upstream candidate. -/
structure Resp where
  status : Nat
  headers : Header
  body : String
deriving DecidableEq

/-- External collaborators of one forwarded request. -/
structure HTTPEnv where
  findProxy : String → Except String (List Proxy)
  roundTrip : Nat → List Nat → Nat × Except String Resp

/-- A non-CONNECT request: lookup URL, headers, body bytes. -/
structure HTTPReq where
  url : String
  headers : Header
  body : List Nat

/-- Everything observable about one forwarded request: the sanitized headers
handed to the round trips, the attempts (index and the body bytes each
attempt could still observe), the relayed status code if one was, the
response headers copied out, and the wire writes. -/
structure HTTPResult where
  sentHeaders : Header
  attempts : List (Nat × List Nat)
  forwarded : Option Nat
  respHeaders : Header
  writes : List Write
deriving DecidableEq

/-- The loop of source lines 184-201: round-trip candidates in order on the
same request, keep the last error, continue on error; on success copy the
response headers, write the status code, stream the body and stop.  Falling
off the list responds 503 No Proxy Available. -/
def httpLoopAux (rt : Nat → List Nat → Nat × Except String Resp) :
    List Proxy → Nat → List Nat → HTTPResult
  | [], _, _ =>
    { sentHeaders := [], attempts := [], forwarded := none, respHeaders := [],
      writes := (RW.httpError RW.init "No Proxy Available" 503).writes }
  | _ :: rest, i, body =>
    let step := rt i body
    match step.2 with
    | Except.error _ =>
      let r := httpLoopAux rt rest (i + 1) (body.drop step.1)
      { r with attempts := (i, body) :: r.attempts }
    | Except.ok resp =>
      let w1 := RW.writeHeader RW.init resp.status
      { sentHeaders := [], attempts := [(i, body)], forwarded := some resp.status,
        respHeaders := resp.headers,
        writes := w1.writes ++ [Write.bodyChunk resp.body] }

/-- handleHTTP: resolve on the full request URL, 503 on resolution failure
(before any sanitizing), sanitize the request headers exactly once, then run
the failover loop. -/
def handleHTTP (env : HTTPEnv) (rq : HTTPReq) : HTTPResult :=
  match env.findProxy rq.url with
  | Except.error e =>
    { sentHeaders := rq.headers, attempts := [], forwarded := none,
      respHeaders := [], writes := (RW.httpError RW.init e 503).writes }
  | Except.ok proxies =>
    let hs := prune rq.headers
    let L := httpLoopAux env.roundTrip proxies 0 rq.body
    { sentHeaders := hs, attempts := L.attempts, forwarded := L.forwarded,
      respHeaders := L.respHeaders, writes := L.writes }

/-! ## One tick of the reload loop (source lines 207-228)

gpac.From is abstracted to its outcome: the parser it returned (none models
the nil parser a failed load yields) and the error.  The source calls
pac.Source() before looking at the error: on a nil parser that call
dereferences nil and the panic of the watch goroutine kills the whole
process, which the model records as panicked.  When the parser is non-nil
and its source text differs from the active one, the source logs — failure
or success — and then installs the freshly loaded parser unconditionally. -/

/-- The active pac source, identified by its source text. -/
structure Parser where
  source : String
deriving DecidableEq

/-- Outcome of one tick of watch. -/
structure TickResult where
  newPac : Option Parser
  panicked : Bool
  loggedFailure : Bool
  loggedUnchanged : Bool
deriving DecidableEq

/-- One tick of watch: load, compare source text before checking the error,
keep the old parser only when the text is unchanged, otherwise log and
install whatever the load produced — also when it produced an error. -/
def watchTick (cur : Parser) (loaded : Option Parser) (err : Option String) :
    TickResult :=
  match loaded with
  | none =>
    { newPac := none, panicked := true, loggedFailure := false,
      loggedUnchanged := false }
  | some pac =>
    if pac.source = cur.source then
      { newPac := some cur, panicked := false, loggedFailure := false,
        loggedUnchanged := true }
    else if err.isSome then
      { newPac := some pac, panicked := false, loggedFailure := true,
        loggedUnchanged := false }
    else
      { newPac := some pac, panicked := false, loggedFailure := false,
        loggedUnchanged := false }

/-! ## Outcome counting for the one-outcome property -/

/-- How many of the outcomes a CONNECT request produced: tunnel established,
503 status line written, 500 status line written (a forward response cannot
occur on the CONNECT path). -/
def connectOutcomes (r : ConnectResult) : Nat :=
  (if r.tunnel.isSome then 1 else 0) +
  (if Write.statusLine 503 ∈ r.writes then 1 else 0) +
  (if Write.statusLine 500 ∈ r.writes then 1 else 0)

/-- How many of the outcomes a forwarded request produced: forward response
written, or error 503 written. -/
def httpOutcomes (r : HTTPResult) : Nat :=
  (if r.forwarded.isSome then 1 else 0) +
  (if r.forwarded = none ∧ Write.statusLine 503 ∈ r.writes then 1 else 0)

/-! ## Concrete inputs used by witnesses and counterexamples -/

/-- A CONNECT request to port 443. -/
def connReq443 : ConnReq :=
  ⟨"upstream.example:443", "upstream.example", "443"⟩

/-- A dialer whose first two candidates fail and whose third yields
connection 7. -/
def dialThirdOk : Nat → String → Except String Nat :=
  fun j _ =>
    if j = 0 then Except.error "refused-a"
    else if j = 1 then Except.error "refused-b"
    else Except.ok 7

/-- A dialer that always fails, naming the candidate index. -/
def dialAllFail : Nat → String → Except String Nat :=
  fun j _ => Except.error (if j = 0 then "refused-0" else "refused-1")

/-- CONNECT environment where resolution yields one Direct candidate, the
dial succeeds with connection 42, and the hijack then fails. -/
def envHijackFails : ConnectEnv :=
  ⟨fun _ => Except.ok [⟨Capability.direct⟩], fun _ _ => Except.ok 42, true,
    Except.error "hijack failed"⟩

/-- CONNECT environment with one Direct candidate and a working hijack. -/
def envDirectTunnel : ConnectEnv :=
  ⟨fun _ => Except.ok [⟨Capability.direct⟩], fun _ _ => Except.ok 5, true,
    Except.ok 6⟩

/-- CONNECT environment with one HTTP-forwarding candidate and a working
hijack. -/
def envHttpTunnel : ConnectEnv :=
  ⟨fun _ => Except.ok [⟨Capability.httpProxy⟩], fun _ _ => Except.ok 5, true,
    Except.ok 6⟩

/-- Header refuting the literal sanitizer claim: Connection carries a second
value naming X-Bar, Te carries a second value besides trailers, and Upgrade
carries an empty value. -/
def hdrMultiValued : Header :=
  [("Connection", ["x-foo", "x-bar"]), ("X-Bar", ["1"]),
   ("Te", ["trailers", "gzip"]), ("Upgrade", [""])]

/-- A well-formed header exercising the amended sanitizer claim. -/
def hdrWellFormed : Header :=
  [("Connection", ["close, X-Custom"]), ("X-Custom", ["v"]),
   ("Te", ["trailers"]), ("Transfer-Encoding", ["chunked"]),
   ("Accept", ["text"])]

/-- Round-trip table whose first candidate consumes three body bytes and
fails, and whose second candidate succeeds with a 200. -/
def rtFirstEats : Nat → List Nat → Nat × Except String Resp :=
  fun j body =>
    if j = 0 then (3, Except.error "upstream reset")
    else (body.length, Except.ok ⟨200, [], "hello"⟩)

/-- A forwarded request with a five-byte body. -/
def httpReqBody : HTTPReq :=
  ⟨"http://origin.example/x", [], [10, 20, 30, 40, 50]⟩

/-! ## Filter characterisation of the sanitizer

Both passes of the sanitizer only ever delete whole keys, so each equals a
List.filter by a predicate on the key computed from the original header; the
idempotence and removal theorems all flow from that normal form. -/

theorem list_all_congr {α : Type} {l : List α} {p q : α → Bool}
    (h : ∀ x ∈ l, p x = q x) : l.all p = l.all q := by
  induction l with
  | nil => rfl
  | cons a t ih =>
    simp only [List.all_cons, h a (List.mem_cons_self a t),
      ih fun x hx => h x (List.mem_cons_of_mem a hx)]

theorem hGet_filter_key (P : String → Bool) (h : Header) (k : String) :
    hGet (h.filter fun e => P e.1) k =
      if P (canonicalKey k) then hGet h k else "" := by
  induction h with
  | nil => simp [hGet]
  | cons e t ih =>
    rw [List.filter_cons]
    by_cases hp : P e.1
    · simp only [hp, if_true]
      by_cases he : e.1 == canonicalKey k
      · have hk : P (canonicalKey k) = true := by rw [← eq_of_beq he]; exact hp
        simp [hGet, he, hk]
      · simp [hGet, he, ih]
    · simp only [Bool.not_eq_true] at hp
      simp only [hp, Bool.false_eq_true, if_false]
      rw [ih]
      by_cases he : e.1 == canonicalKey k
      · have hk : P (canonicalKey k) = false := by rw [← eq_of_beq he]; exact hp
        simp [hk]
      · simp [hGet, he]

theorem any_key_and (h : Header) (P : String → Bool) (c : String) :
    (h.any fun e => P e.1 && (e.1 == c)) = (P c && h.any fun e => e.1 == c) := by
  induction h with
  | nil => simp
  | cons e t ih =>
    simp only [List.any_cons, ih]
    by_cases he : (e.1 == c) = true
    · rw [eq_of_beq he]
      cases P c <;> simp
    · have hf : (e.1 == c) = false := by simpa using he
      simp [hf]

theorem hContains_filter_key (P : String → Bool) (h : Header) (k : String) :
    hContains (h.filter fun e => P e.1) k =
      (P (canonicalKey k) && hContains h k) := by
  unfold hContains
  rw [List.any_filter, any_key_and]

theorem connFold_eq_filter (toks : List String) (h : Header) :
    toks.foldl
        (fun acc f =>
          let f := trimSpace f
          if f = "" then acc else hDel acc f) h
      = h.filter fun e =>
          toks.all fun t => trimSpace t == "" || e.1 != canonicalKey (trimSpace t) := by
  induction toks generalizing h with
  | nil => simp
  | cons a ts ih =>
    rw [List.foldl_cons]
    by_cases ha : trimSpace a = ""
    · have hstep :
          (let f := trimSpace a
           if f = "" then h else hDel h f) = h := by
        simp [ha]
      rw [hstep, ih]
      apply List.filter_congr
      intro e _
      simp [List.all_cons, ha]
    · have hstep :
          (let f := trimSpace a
           if f = "" then h else hDel h f)
          = h.filter fun e => e.1 != canonicalKey (trimSpace a) := by
        simp only [ha, if_false]
        rfl
      rw [hstep, ih, List.filter_filter]
      apply List.filter_congr
      intro e _
      simp only [List.all_cons]
      rw [Bool.and_comm]
      congr 1
      simp [ha]

theorem hopFold_eq_filter (l : List String) (hc : ∀ q ∈ l, canonicalKey q = q)
    (hnd : l.Nodup) (h : Header) :
    l.foldl
        (fun acc k =>
          let hv := hGet acc k
          if hv = "" then acc
          else if k = "Te" ∧ hv = "trailers" then acc
          else hDel acc k) h
      = h.filter fun e =>
          l.all fun q =>
            e.1 != q || hGet h q == "" || (q == "Te" && hGet h q == "trailers") := by
  induction l generalizing h with
  | nil => simp
  | cons k0 ts ih =>
    obtain ⟨hk0, hts⟩ := List.nodup_cons.mp hnd
    have hck0 : canonicalKey k0 = k0 := hc k0 (List.mem_cons_self _ _)
    have hcts : ∀ q ∈ ts, canonicalKey q = q :=
      fun q hq => hc q (List.mem_cons_of_mem _ hq)
    have hstep :
        (let hv := hGet h k0
         if hv = "" then h
         else if k0 = "Te" ∧ hv = "trailers" then h
         else hDel h k0)
        = h.filter fun e =>
            e.1 != k0 || hGet h k0 == "" || (k0 == "Te" && hGet h k0 == "trailers") := by
      by_cases h0 : hGet h k0 = ""
      · simp [h0]
      · by_cases hte : k0 = "Te" ∧ hGet h k0 = "trailers"
        · obtain ⟨hk, hv⟩ := hte
          subst hk
          simp [hv]
        · have h3 : (k0 == "Te" && hGet h k0 == "trailers") = false := by
            by_cases hk : k0 = "Te"
            · have : hGet h k0 ≠ "trailers" := fun hv => hte ⟨hk, hv⟩
              simp [this]
            · simp [hk]
          simp only [h0, if_false, hte, if_false]
          show hDel h k0 = _
          unfold hDel
          rw [hck0]
          apply List.filter_congr
          intro e _
          simp [h0, h3]
      -- both empty-test branches handled above
    rw [List.foldl_cons, hstep, ih hcts hts, List.filter_filter]
    have hstable : ∀ q ∈ ts,
        hGet (h.filter fun e =>
          e.1 != k0 || hGet h k0 == "" || (k0 == "Te" && hGet h k0 == "trailers")) q
        = hGet h q := by
      intro q hq
      rw [hGet_filter_key
        (fun x => x != k0 || hGet h k0 == "" || (k0 == "Te" && hGet h k0 == "trailers"))
        h q, hcts q hq]
      have hne : (q != k0) = true := by
        have : q ≠ k0 := fun hqe => hk0 (hqe ▸ hq)
        simpa using this
      simp [hne]
    apply List.filter_congr
    intro e _
    simp only [List.all_cons]
    rw [Bool.and_comm]
    congr 1
    apply list_all_congr
    intro q hq
    rw [hstable q hq]

theorem removeConnectionHeaders_eq_filter (h : Header) :
    removeConnectionHeaders h = h.filter fun e => connKeep h e.1 := by
  unfold removeConnectionHeaders connKeep
  by_cases hc : hGet h "Connection" = ""
  · simp only [hc, if_true]
    have hsp : splitComma "" = [""] := rfl
    have htrim : trimSpace "" = "" := rfl
    rw [hsp]
    simp [List.all_cons, htrim]
  · simp only [hc, if_false]
    exact connFold_eq_filter _ h

theorem removeHopHeaders_eq_filter (h : Header) :
    removeHopHeaders h = h.filter fun e => hopKeep h e.1 := by
  unfold removeHopHeaders hopKeep
  exact hopFold_eq_filter hopHeaders (by decide) (by decide) h

theorem hop_canonical : ∀ q ∈ hopHeaders, canonicalKey q = q := by decide

/-! ## Idempotence of the sanitizer -/

theorem hGet_prune_connection (h : Header) : hGet (prune h) "Connection" = "" := by
  have hpr : prune h = (removeConnectionHeaders h).filter
      (fun e => hopKeep (removeConnectionHeaders h) e.1) :=
    removeHopHeaders_eq_filter (removeConnectionHeaders h)
  rw [hpr,
    hGet_filter_key (fun x => hopKeep (removeConnectionHeaders h) x) _ "Connection"]
  have hck : canonicalKey "Connection" = "Connection" := by decide
  rw [hck]
  by_cases hk : hopKeep (removeConnectionHeaders h) "Connection" = true
  · have hmem : "Connection" ∈ hopHeaders := by decide
    have hconj := (List.all_eq_true.mp hk) "Connection" hmem
    have hne : (("Connection" : String) == "Te") = false := by decide
    simp only [bne_self_eq_false, Bool.false_or, hne, Bool.false_and,
      Bool.or_false, beq_iff_eq] at hconj
    simp [hk, hconj]
  · simp [hk]

theorem removeConnectionHeaders_prune (h : Header) :
    removeConnectionHeaders (prune h) = prune h := by
  unfold removeConnectionHeaders
  simp [hGet_prune_connection h]

theorem removeHopHeaders_prune (h : Header) :
    removeHopHeaders (prune h) = prune h := by
  rw [removeHopHeaders_eq_filter]
  apply List.filter_eq_self.mpr
  intro e he
  have hpr : prune h = (removeConnectionHeaders h).filter
      (fun x => hopKeep (removeConnectionHeaders h) x.1) :=
    removeHopHeaders_eq_filter (removeConnectionHeaders h)
  rw [hpr] at he
  obtain ⟨hmem, hkeep⟩ := List.mem_filter.mp he
  apply List.all_eq_true.mpr
  intro q hq
  by_cases heq : e.1 = q
  · have hconj := (List.all_eq_true.mp hkeep) q hq
    have hself : (q != q) = false := by simp
    rw [heq, hself, Bool.false_or] at hconj
    have hgq : hGet (prune h) q =
        if hopKeep (removeConnectionHeaders h) q then
          hGet (removeConnectionHeaders h) q
        else "" := by
      rw [hpr, hGet_filter_key (fun x => hopKeep (removeConnectionHeaders h) x) _ q,
        hop_canonical q hq]
    rcases (Bool.or_eq_true _ _).mp hconj with h2 | h3
    · have hempty : hGet (prune h) q = "" := by
        rw [hgq]
        split
        · exact beq_iff_eq.mp h2
        · rfl
      simp [hempty]
    · obtain ⟨hq1, hq2⟩ := (Bool.and_eq_true _ _).mp h3
      have hkq : hopKeep (removeConnectionHeaders h) q = true := by
        rw [← heq]; exact hkeep
      have hsame : hGet (prune h) q = hGet (removeConnectionHeaders h) q := by
        rw [hgq, if_pos hkq]
      simp [hsame, hq1, hq2]
  · have hne : (e.1 != q) = true := by simpa using heq
    simp [hne]

/-! ## Dial loop lemmas -/

theorem dialLoopAux_cons_error (dial : Nat → String → Except String Nat)
    (addr : String) (p : Proxy) (rest : List Proxy) (i : Nat)
    (pv : Option Proxy) (ev : Option String) (e : String)
    (he : dial i addr = Except.error e) :
    dialLoopAux dial addr (p :: rest) i pv ev =
      ⟨(dialLoopAux dial addr rest (i + 1) (some p) (some e)).proxyVar,
       (dialLoopAux dial addr rest (i + 1) (some p) (some e)).errVar,
       (dialLoopAux dial addr rest (i + 1) (some p) (some e)).dst,
       (dialLoopAux dial addr rest (i + 1) (some p) (some e)).winIdx,
       i :: (dialLoopAux dial addr rest (i + 1) (some p) (some e)).dialedIdx,
       addr :: (dialLoopAux dial addr rest (i + 1) (some p) (some e)).dialedAddr⟩ := by
  rw [dialLoopAux.eq_2, he]

theorem dialLoopAux_cons_ok (dial : Nat → String → Except String Nat)
    (addr : String) (p : Proxy) (rest : List Proxy) (i : Nat)
    (pv : Option Proxy) (ev : Option String) (c : Nat)
    (hok : dial i addr = Except.ok c) :
    dialLoopAux dial addr (p :: rest) i pv ev =
      ⟨some p, none, some c, some i, [i], [addr]⟩ := by
  rw [dialLoopAux.eq_2, hok]

theorem dialLoopAux_all_fail (dial : Nat → String → Except String Nat)
    (addr : String) :
    ∀ (ps : List Proxy) (i : Nat) (pv : Option Proxy) (ev : Option String),
      ps ≠ [] →
      (∀ j, j < ps.length → ∃ e, dial (i + j) addr = Except.error e) →
      (dialLoopAux dial addr ps i pv ev).errVar
          = errOf (dial (i + ps.length - 1) addr) ∧
      (dialLoopAux dial addr ps i pv ev).dst = none ∧
      (dialLoopAux dial addr ps i pv ev).winIdx = none ∧
      (dialLoopAux dial addr ps i pv ev).dialedIdx = List.range' i ps.length ∧
      (dialLoopAux dial addr ps i pv ev).dialedAddr
          = List.replicate ps.length addr := by
  intro ps
  induction ps with
  | nil => intro i pv ev hne _; exact absurd rfl hne
  | cons p rest ih =>
    intro i pv ev _ hf
    obtain ⟨e, he⟩ := hf 0 (by simp)
    rw [Nat.add_zero] at he
    rw [dialLoopAux_cons_error dial addr p rest i pv ev e he]
    cases rest with
    | nil =>
      simp [dialLoopAux, he, errOf, List.range']
    | cons q rest2 =>
      have hrec := ih (i + 1) (some p) (some e) (by simp)
        (fun j hj => by
          have := hf (j + 1) (by simpa using Nat.succ_lt_succ hj)
          simpa [Nat.add_assoc, Nat.add_comm 1 j] using this)
      have hlen : i + 1 + (q :: rest2).length - 1
          = i + (p :: q :: rest2).length - 1 := by
        simp only [List.length_cons]
        omega
      refine ⟨?_, hrec.2.1, hrec.2.2.1, ?_, ?_⟩
      · show (dialLoopAux dial addr (q :: rest2) (i + 1) (some p) (some e)).errVar = _
        rw [hrec.1, hlen]
      · show i :: (dialLoopAux dial addr (q :: rest2) (i + 1) (some p) (some e)).dialedIdx
            = _
        rw [hrec.2.2.2.1,
          show (p :: q :: rest2).length = (q :: rest2).length + 1 from rfl,
          List.range'_succ]
      · show addr :: (dialLoopAux dial addr (q :: rest2) (i + 1) (some p) (some e)).dialedAddr
            = _
        rw [hrec.2.2.2.2]
        rfl

theorem dialLoopAux_first_success (dial : Nat → String → Except String Nat)
    (addr : String) :
    ∀ (k : Nat) (ps : List Proxy) (i : Nat) (pv : Option Proxy)
      (ev : Option String) (c : Nat),
      k < ps.length →
      (∀ j, j < k → ∃ e, dial (i + j) addr = Except.error e) →
      dial (i + k) addr = Except.ok c →
      (dialLoopAux dial addr ps i pv ev).proxyVar = ps[k]? ∧
      (dialLoopAux dial addr ps i pv ev).errVar = none ∧
      (dialLoopAux dial addr ps i pv ev).dst = some c ∧
      (dialLoopAux dial addr ps i pv ev).winIdx = some (i + k) ∧
      (dialLoopAux dial addr ps i pv ev).dialedIdx = List.range' i (k + 1) ∧
      (dialLoopAux dial addr ps i pv ev).dialedAddr
          = List.replicate (k + 1) addr := by
  intro k
  induction k with
  | zero =>
    intro ps i pv ev c hk _ hok
    rw [Nat.add_zero] at hok
    cases ps with
    | nil => simp at hk
    | cons p rest =>
      rw [dialLoopAux_cons_ok dial addr p rest i pv ev c hok]
      simp [List.range']
  | succ k ih =>
    intro ps i pv ev c hk hf hok
    cases ps with
    | nil => simp at hk
    | cons p rest =>
      obtain ⟨e, he⟩ := hf 0 (Nat.succ_pos k)
      rw [Nat.add_zero] at he
      rw [dialLoopAux_cons_error dial addr p rest i pv ev e he]
      have hrec := ih rest (i + 1) (some p) (some e) c
        (by simpa using Nat.lt_of_succ_lt_succ hk)
        (fun j hj => by
          have := hf (j + 1) (Nat.succ_lt_succ hj)
          simpa [Nat.add_assoc, Nat.add_comm 1 j] using this)
        (by
          have harr : i + 1 + k = i + (k + 1) := by omega
          rw [harr]; exact hok)
      refine ⟨?_, hrec.2.1, hrec.2.2.1, ?_, ?_, ?_⟩
      · show (dialLoopAux dial addr rest (i + 1) (some p) (some e)).proxyVar = _
        rw [hrec.1]
        exact (List.getElem?_cons_succ ..).symm
      · show (dialLoopAux dial addr rest (i + 1) (some p) (some e)).winIdx = _
        rw [hrec.2.2.2.1]
        congr 1
        omega
      · show i :: (dialLoopAux dial addr rest (i + 1) (some p) (some e)).dialedIdx = _
        rw [hrec.2.2.2.2.1, List.range'_succ i (k + 1) 1]
      · show addr :: (dialLoopAux dial addr rest (i + 1) (some p) (some e)).dialedAddr = _
        rw [hrec.2.2.2.2.2]
        rfl

/-! ## Forwarding loop lemmas -/

theorem httpLoopAux_head_attempt (rt : Nat → List Nat → Nat × Except String Resp)
    (p : Proxy) (ps : List Proxy) (i : Nat) (body : List Nat) :
    (httpLoopAux rt (p :: ps) i body).attempts.head? = some (i, body) := by
  unfold httpLoopAux
  cases h : (rt i body).2 <;> simp [h]

theorem httpLoopAux_outcome (rt : Nat → List Nat → Nat × Except String Resp) :
    ∀ (ps : List Proxy) (i : Nat) (body : List Nat),
      (∃ st b, (httpLoopAux rt ps i body).forwarded = some st ∧
        (httpLoopAux rt ps i body).writes
          = [Write.statusLine st, Write.bodyChunk b]) ∨
      ((httpLoopAux rt ps i body).forwarded = none ∧
        (httpLoopAux rt ps i body).writes
          = [Write.statusLine 503, Write.bodyChunk "No Proxy Available\n"]) := by
  intro ps
  induction ps with
  | nil =>
    intro i body
    right
    constructor <;> rfl
  | cons p rest ih =>
    intro i body
    unfold httpLoopAux
    cases h : (rt i body).2 with
    | error e =>
      rcases ih (i + 1) (body.drop (rt i body).1) with ⟨st, b, h1, h2⟩ | ⟨h1, h2⟩
      · exact Or.inl ⟨st, b, by simp [h, h1], by simp [h, h2]⟩
      · exact Or.inr ⟨by simp [h, h1], by simp [h, h2]⟩
    | ok resp =>
      exact Or.inl ⟨resp.status, resp.body, by simp [h], by simp [h, RW.writeHeader, RW.init]⟩

/-! ## handleConnect characterisation -/

theorem handleConnect_success_fields (env : ConnectEnv) (rq : ConnReq)
    (ps : List Proxy) (p : Proxy)
    (hfp : ∀ u, env.findProxy u = Except.ok ps)
    (hE : (dialLoop env.dial rq.rawHost ps).errVar = none)
    (hP : (dialLoop env.dial rq.rawHost ps).proxyVar = some p) :
    (handleConnect env rq).dialedIdx = (dialLoop env.dial rq.rawHost ps).dialedIdx ∧
    (handleConnect env rq).dialedAddr
        = (dialLoop env.dial rq.rawHost ps).dialedAddr ∧
    (handleConnect env rq).winIdx = (dialLoop env.dial rq.rawHost ps).winIdx ∧
    (handleConnect env rq).winner = some p ∧
    (handleConnect env rq).dst = (dialLoop env.dial rq.rawHost ps).dst := by
  unfold handleConnect
  dsimp only
  rw [hfp]
  dsimp only
  rw [hE]
  dsimp only
  rw [hP]
  dsimp only
  split
  · exact ⟨rfl, rfl, rfl, rfl, rfl⟩
  · split
    · exact ⟨rfl, rfl, rfl, rfl, rfl⟩
    · exact ⟨rfl, rfl, rfl, rfl, rfl⟩

theorem handleConnect_allfail_fields (env : ConnectEnv) (rq : ConnReq)
    (ps : List Proxy) (e : String)
    (hfp : ∀ u, env.findProxy u = Except.ok ps)
    (hE : (dialLoop env.dial rq.rawHost ps).errVar = some e) :
    (handleConnect env rq).dialedIdx = (dialLoop env.dial rq.rawHost ps).dialedIdx ∧
    (handleConnect env rq).dialedAddr
        = (dialLoop env.dial rq.rawHost ps).dialedAddr ∧
    (handleConnect env rq).writes
        = [Write.statusLine 503, Write.bodyChunk (e ++ "\n")] ∧
    (handleConnect env rq).tunnel = none := by
  unfold handleConnect
  dsimp only
  rw [hfp]
  dsimp only
  rw [hE]
  exact ⟨rfl, rfl, rfl, rfl⟩

theorem handleConnect_char (env : ConnectEnv) (rq : ConnReq) :
    (∃ m, (handleConnect env rq).winner = none ∧
      (handleConnect env rq).tunnel = none ∧
      (handleConnect env rq).writes = [Write.statusLine 503, Write.bodyChunk m]) ∨
    (∃ p, (handleConnect env rq).winner = some p ∧
      (((p.cap = Capability.direct ∨ p.cap = Capability.socksProxy) ∧
        ((env.hijackSupported = false ∧ (handleConnect env rq).tunnel = none ∧
            (handleConnect env rq).writes
              = [Write.statusLine 200,
                 Write.bodyChunk ("Hijacking not supported" ++ "\n")]) ∨
          (∃ e, env.hijack = Except.error e ∧
            (handleConnect env rq).tunnel = none ∧
            (handleConnect env rq).writes
              = [Write.statusLine 200, Write.bodyChunk (e ++ "\n")]) ∨
          ((handleConnect env rq).tunnel.isSome ∧
            (handleConnect env rq).writes = [Write.statusLine 200]))) ∨
       (¬(p.cap = Capability.direct ∨ p.cap = Capability.socksProxy) ∧
        ((env.hijackSupported = false ∧ (handleConnect env rq).tunnel = none ∧
            (handleConnect env rq).writes
              = [Write.statusLine 500,
                 Write.bodyChunk ("Hijacking not supported" ++ "\n")]) ∨
          (∃ e, env.hijack = Except.error e ∧
            (handleConnect env rq).tunnel = none ∧
            (handleConnect env rq).writes
              = [Write.statusLine 503, Write.bodyChunk (e ++ "\n")]) ∨
          ((handleConnect env rq).tunnel.isSome ∧
            (handleConnect env rq).writes = []))))) := by
  unfold handleConnect
  dsimp only
  split
  · exact Or.inl ⟨_, rfl, rfl, rfl⟩
  · split
    · exact Or.inl ⟨_, rfl, rfl, rfl⟩
    · split
      · exact Or.inl ⟨_, rfl, rfl, rfl⟩
      · rename_i p heq
        by_cases hcap : p.cap = Capability.direct ∨ p.cap = Capability.socksProxy
        · rw [if_pos hcap]
          split
          · rename_i hsup
            exact Or.inr ⟨p, rfl, Or.inl ⟨hcap, Or.inl ⟨hsup, rfl, rfl⟩⟩⟩
          · split
            · rename_i e he
              exact Or.inr ⟨p, rfl, Or.inl ⟨hcap, Or.inr (Or.inl ⟨e, he, rfl, rfl⟩)⟩⟩
            · exact Or.inr ⟨p, rfl, Or.inl ⟨hcap, Or.inr (Or.inr ⟨rfl, rfl⟩)⟩⟩
        · rw [if_neg hcap]
          split
          · rename_i hsup
            exact Or.inr ⟨p, rfl, Or.inr ⟨hcap, Or.inl ⟨hsup, rfl, rfl⟩⟩⟩
          · split
            · rename_i e he
              exact Or.inr ⟨p, rfl, Or.inr ⟨hcap, Or.inr (Or.inl ⟨e, he, rfl, rfl⟩)⟩⟩
            · exact Or.inr ⟨p, rfl, Or.inr ⟨hcap, Or.inr (Or.inr ⟨rfl, rfl⟩)⟩⟩

theorem handleConnect_lookupURL (env : ConnectEnv) (rq : ConnReq) :
    (handleConnect env rq).lookupURL =
      if rq.port = "443" then "https://" ++ rq.host ++ "/"
      else "https://" ++ rq.host ++ ":" ++ rq.port ++ "/" := by
  unfold handleConnect
  dsimp only
  repeat' split
  all_goals rfl

theorem handleConnect_outcomes (env : ConnectEnv) (rq : ConnReq) :
    (statusLines (handleConnect env rq).writes).length ≤ 1 ∧
    (connectOutcomes (handleConnect env rq) = 1 ∨
      (∃ p, (handleConnect env rq).winner = some p ∧
        (p.cap = Capability.direct ∨ p.cap = Capability.socksProxy) ∧
        (env.hijackSupported = false ∨ ∃ e, env.hijack = Except.error e) ∧
        connectOutcomes (handleConnect env rq) = 0 ∧
        statusLines (handleConnect env rq).writes = [200] ∧
        (handleConnect env rq).tunnel = none)) := by
  rcases handleConnect_char env rq with ⟨m, _, ht, hwr⟩ | ⟨p, hw, hrest⟩
  · constructor
    · rw [hwr]; simp [statusLines]
    · left
      unfold connectOutcomes
      rw [hwr, ht]
      simp [statusLines]
  · rcases hrest with ⟨hcap, hsub⟩ | ⟨hcap, hsub⟩
    · rcases hsub with ⟨hsup, ht, hwr⟩ | ⟨e, he, ht, hwr⟩ | ⟨ht, hwr⟩
      · refine ⟨by rw [hwr]; simp [statusLines], Or.inr ⟨p, hw, hcap, Or.inl hsup,
          ?_, by rw [hwr]; simp [statusLines], ht⟩⟩
        unfold connectOutcomes
        rw [hwr, ht]
        simp
      · refine ⟨by rw [hwr]; simp [statusLines], Or.inr ⟨p, hw, hcap,
          Or.inr ⟨e, he⟩, ?_, by rw [hwr]; simp [statusLines], ht⟩⟩
        unfold connectOutcomes
        rw [hwr, ht]
        simp
      · refine ⟨by rw [hwr]; simp [statusLines], Or.inl ?_⟩
        unfold connectOutcomes
        rw [hwr, ht]
        simp
    · rcases hsub with ⟨hsup, ht, hwr⟩ | ⟨e, he, ht, hwr⟩ | ⟨ht, hwr⟩ <;>
        refine ⟨by rw [hwr]; simp [statusLines], Or.inl ?_⟩ <;>
        unfold connectOutcomes <;> rw [hwr, ht] <;> simp

theorem handleHTTP_outcomes (env : HTTPEnv) (rq : HTTPReq) :
    (statusLines (handleHTTP env rq).writes).length = 1 ∧
    httpOutcomes (handleHTTP env rq) = 1 := by
  unfold handleHTTP
  cases hfp : env.findProxy rq.url with
  | error e =>
    dsimp only
    constructor
    · simp [statusLines, RW.httpError, RW.writeHeader, RW.init]
    · simp [httpOutcomes, RW.httpError, RW.writeHeader, RW.init]
  | ok ps =>
    dsimp only
    rcases httpLoopAux_outcome env.roundTrip ps 0 rq.body with
      ⟨st, b, h1, h2⟩ | ⟨h1, h2⟩
    · constructor
      · rw [h2]; simp [statusLines]
      · unfold httpOutcomes
        dsimp only
        rw [h1]
        simp
    · constructor
      · rw [h2]; simp [statusLines]
      · unfold httpOutcomes
        dsimp only
        rw [h1, h2]
        simp

theorem hGet_ne_of_contains (h : Header)
    (hv : ∀ e ∈ h, firstVal e.2 ≠ "") (k : String)
    (hc : hContains h k = true) : hGet h k ≠ "" := by
  induction h with
  | nil => simp [hContains] at hc
  | cons e t ih =>
    unfold hGet
    by_cases he : (e.1 == canonicalKey k) = true
    · rw [if_pos he]
      exact hv e (List.mem_cons_self _ _)
    · rw [if_neg he]
      apply ih
      · intro x hx; exact hv x (List.mem_cons_of_mem _ hx)
      · unfold hContains at hc
        rw [List.any_cons] at hc
        rcases (Bool.or_eq_true _ _).mp hc with h1 | h1
        · exact absurd h1 he
        · exact h1

/-! ## The claims -/

/-- C1: the claim says a failed reload leaves the active RoutingSource
unchanged and is never fatal.  The code violates it: watch compares
pac.Source() before checking the load error, so a tick whose load returns an
error but a non-nil parser with different source text logs the failure and
still installs the errored parser, and a tick whose load returns a nil parser
dereferences nil and the panic kills the process.  This theorem evaluates the
embedded tick at both failing inputs. -/
theorem watch_reload_failure_installs :
    (watchTick ⟨"old"⟩ (some ⟨"new"⟩) (some "read failed")).newPac = some ⟨"new"⟩ ∧
    (watchTick ⟨"old"⟩ (some ⟨"new"⟩) (some "read failed")).loggedFailure = true ∧
    (watchTick ⟨"old"⟩ none (some "read failed")).panicked = true := by
  decide

/-- C5: the claim says that after a successful dial whose hijack fails the
client receives service unavailable and the upstream connection is closed.
The code violates it: nothing outside the tunnel pipes closes dst, so the
dialed connection 42 stays open with no tunnel (a leak), and for the Direct
winner the 200 already written suppresses the 503 status line, so only the
error text reaches the client. -/
theorem connect_hijack_failure_leaks :
    (handleConnect envHijackFails connReq443).dst = some 42 ∧
    (handleConnect envHijackFails connReq443).tunnel = none ∧
    statusLines (handleConnect envHijackFails connReq443).writes = [200] ∧
    Write.statusLine 503 ∉ (handleConnect envHijackFails connReq443).writes := by
  decide

/-- C2 counterexample: a CONNECT request whose Direct candidate dials
successfully and whose hijack then fails produces none of the four outcomes —
no tunnel, no forward response (impossible on the CONNECT path), and no 503
or 500 status line, the error status being suppressed by the 200 already on
the wire — refuting "exactly one outcome occurs". -/
theorem connect_zero_outcomes_counterexample :
    connectOutcomes (handleConnect envHijackFails connReq443) = 0 ∧
    statusLines (handleConnect envHijackFails connReq443).writes = [200] ∧
    (handleConnect envHijackFails connReq443).tunnel = none := by
  decide

/-- C2 (amended): for every request, at most one status line reaches the
client; exactly one of the outcomes occurs — tunnel established, forward
response written, 503 written, 500 written — except on the CONNECT path when
the hijack fails or is unsupported after a Direct or SOCKS winner, where a
200 status line has already been written, no tunnel is established, and the
error status is suppressed. -/
theorem request_outcomes_amended (cenv : ConnectEnv) (rq : ConnReq)
    (henv : HTTPEnv) (hq : HTTPReq) :
    ((statusLines (handleConnect cenv rq).writes).length ≤ 1 ∧
      (connectOutcomes (handleConnect cenv rq) = 1 ∨
        (∃ p, (handleConnect cenv rq).winner = some p ∧
          (p.cap = Capability.direct ∨ p.cap = Capability.socksProxy) ∧
          (cenv.hijackSupported = false ∨ ∃ e, cenv.hijack = Except.error e) ∧
          connectOutcomes (handleConnect cenv rq) = 0 ∧
          statusLines (handleConnect cenv rq).writes = [200] ∧
          (handleConnect cenv rq).tunnel = none))) ∧
    ((statusLines (handleHTTP henv hq).writes).length = 1 ∧
      httpOutcomes (handleHTTP henv hq) = 1) :=
  ⟨handleConnect_outcomes cenv rq, handleHTTP_outcomes henv hq⟩

/-- C3: CONNECT failover: candidates are dialed strictly in resolution order,
every dial is handed the literal r.Host of the original request, the first
successful dial stops the iteration retaining that connection and that
candidate, and when every candidate fails the client receives 503 with the
last dial error as the message.  The two environments exercise the
first-success run and the all-fail run. -/
theorem connect_failover_order (rq : ConnReq) (hsup : Bool)
    (hij : Except String Nat)
    (dial1 : Nat → String → Except String Nat) (ps1 : List Proxy) (i c : Nat)
    (hlen : i < ps1.length)
    (hfail : ∀ j, j < i → ∃ e, dial1 j rq.rawHost = Except.error e)
    (hok : dial1 i rq.rawHost = Except.ok c)
    (dial2 : Nat → String → Except String Nat) (ps2 : List Proxy)
    (hne : ps2 ≠ [])
    (hall : ∀ j, j < ps2.length → ∃ e, dial2 j rq.rawHost = Except.error e) :
    (handleConnect ⟨fun _ => Except.ok ps1, dial1, hsup, hij⟩ rq).dialedIdx
        = List.range (i + 1) ∧
    (handleConnect ⟨fun _ => Except.ok ps1, dial1, hsup, hij⟩ rq).dialedAddr
        = List.replicate (i + 1) rq.rawHost ∧
    (handleConnect ⟨fun _ => Except.ok ps1, dial1, hsup, hij⟩ rq).winIdx
        = some i ∧
    (handleConnect ⟨fun _ => Except.ok ps1, dial1, hsup, hij⟩ rq).winner
        = ps1[i]? ∧
    (handleConnect ⟨fun _ => Except.ok ps1, dial1, hsup, hij⟩ rq).dst
        = some c ∧
    (handleConnect ⟨fun _ => Except.ok ps2, dial2, hsup, hij⟩ rq).dialedIdx
        = List.range ps2.length ∧
    (handleConnect ⟨fun _ => Except.ok ps2, dial2, hsup, hij⟩ rq).dialedAddr
        = List.replicate ps2.length rq.rawHost ∧
    (∃ e, dial2 (ps2.length - 1) rq.rawHost = Except.error e ∧
      (handleConnect ⟨fun _ => Except.ok ps2, dial2, hsup, hij⟩ rq).writes
        = [Write.statusLine 503, Write.bodyChunk (e ++ "\n")] ∧
      (handleConnect ⟨fun _ => Except.ok ps2, dial2, hsup, hij⟩ rq).tunnel
        = none) := by
  have hf0 : ∀ j, j < i → ∃ e, dial1 (0 + j) rq.rawHost = Except.error e := by
    simpa using hfail
  have hok0 : dial1 (0 + i) rq.rawHost = Except.ok c := by simpa using hok
  have hS := dialLoopAux_first_success dial1 rq.rawHost i ps1 0 none none c
    hlen hf0 hok0
  obtain ⟨p, hp⟩ : ∃ p, ps1[i]? = some p := by
    rw [List.getElem?_eq_getElem hlen]; exact ⟨_, rfl⟩
  have hFields := handleConnect_success_fields
    ⟨fun _ => Except.ok ps1, dial1, hsup, hij⟩ rq ps1 p (fun _ => rfl)
    hS.2.1 (by rw [show (dialLoop dial1 rq.rawHost ps1).proxyVar = ps1[i]?
      from hS.1, hp])
  have hA := dialLoopAux_all_fail dial2 rq.rawHost ps2 0 none none hne
    (by simpa using hall)
  have hlpos : 0 < ps2.length := List.length_pos.mpr hne
  obtain ⟨e, he⟩ := hall (ps2.length - 1) (by omega)
  have hE2 : (dialLoop dial2 rq.rawHost ps2).errVar = some e := by
    have h1 := hA.1
    rw [Nat.zero_add] at h1
    rw [show dialLoop dial2 rq.rawHost ps2
        = dialLoopAux dial2 rq.rawHost ps2 0 none none from rfl, h1, he]
    rfl
  have hFields2 := handleConnect_allfail_fields
    ⟨fun _ => Except.ok ps2, dial2, hsup, hij⟩ rq ps2 e (fun _ => rfl) hE2
  refine ⟨?_, ?_, ?_, ?_, ?_, ?_, ?_, ⟨e, he, hFields2.2.2.1, hFields2.2.2.2⟩⟩
  · rw [hFields.1, show (dialLoop dial1 rq.rawHost ps1).dialedIdx
      = List.range' 0 (i + 1) from hS.2.2.2.2.1, List.range_eq_range']
  · rw [hFields.2.1]
    exact hS.2.2.2.2.2
  · rw [hFields.2.2.1, show (dialLoop dial1 rq.rawHost ps1).winIdx
      = some (0 + i) from hS.2.2.2.1, Nat.zero_add]
  · rw [hFields.2.2.2.1, hp]
  · rw [hFields.2.2.2.2]
    exact hS.2.2.1
  · rw [hFields2.1, show (dialLoop dial2 rq.rawHost ps2).dialedIdx
      = List.range' 0 ps2.length from hA.2.2.2.1, List.range_eq_range']
  · rw [hFields2.2.1]
    exact hA.2.2.2.2

/-- C3 witness: three candidates of which the first two refuse and the third
accepts with connection 7, and a second run whose two candidates both
refuse. -/
theorem connect_failover_order_witness :
    (handleConnect ⟨fun _ => Except.ok
        [⟨Capability.httpProxy⟩, ⟨Capability.direct⟩, ⟨Capability.direct⟩],
        dialThirdOk, true, Except.ok 9⟩ connReq443).dialedIdx
      = List.range 3 ∧
    (handleConnect ⟨fun _ => Except.ok
        [⟨Capability.httpProxy⟩, ⟨Capability.direct⟩, ⟨Capability.direct⟩],
        dialThirdOk, true, Except.ok 9⟩ connReq443).dialedAddr
      = List.replicate 3 "upstream.example:443" ∧
    (handleConnect ⟨fun _ => Except.ok
        [⟨Capability.httpProxy⟩, ⟨Capability.direct⟩, ⟨Capability.direct⟩],
        dialThirdOk, true, Except.ok 9⟩ connReq443).winIdx = some 2 ∧
    (handleConnect ⟨fun _ => Except.ok
        [⟨Capability.httpProxy⟩, ⟨Capability.direct⟩, ⟨Capability.direct⟩],
        dialThirdOk, true, Except.ok 9⟩ connReq443).winner
      = some ⟨Capability.direct⟩ ∧
    (handleConnect ⟨fun _ => Except.ok
        [⟨Capability.httpProxy⟩, ⟨Capability.direct⟩, ⟨Capability.direct⟩],
        dialThirdOk, true, Except.ok 9⟩ connReq443).dst = some 7 ∧
    (handleConnect ⟨fun _ => Except.ok [⟨Capability.direct⟩, ⟨Capability.direct⟩],
        dialAllFail, true, Except.ok 9⟩ connReq443).dialedIdx = List.range 2 ∧
    (handleConnect ⟨fun _ => Except.ok [⟨Capability.direct⟩, ⟨Capability.direct⟩],
        dialAllFail, true, Except.ok 9⟩ connReq443).dialedAddr
      = List.replicate 2 "upstream.example:443" ∧
    (∃ e, dialAllFail 1 "upstream.example:443" = Except.error e ∧
      (handleConnect ⟨fun _ => Except.ok [⟨Capability.direct⟩, ⟨Capability.direct⟩],
          dialAllFail, true, Except.ok 9⟩ connReq443).writes
        = [Write.statusLine 503, Write.bodyChunk (e ++ "\n")] ∧
      (handleConnect ⟨fun _ => Except.ok [⟨Capability.direct⟩, ⟨Capability.direct⟩],
          dialAllFail, true, Except.ok 9⟩ connReq443).tunnel = none) :=
  connect_failover_order connReq443 true (Except.ok 9) dialThirdOk
    [⟨Capability.httpProxy⟩, ⟨Capability.direct⟩, ⟨Capability.direct⟩] 2 7
    (by decide)
    (by
      intro j hj
      match j, hj with
      | 0, _ => exact ⟨"refused-a", rfl⟩
      | 1, _ => exact ⟨"refused-b", rfl⟩)
    rfl
    dialAllFail [⟨Capability.direct⟩, ⟨Capability.direct⟩]
    (by decide)
    (by
      intro j hj
      match j, hj with
      | 0, _ => exact ⟨"refused-0", rfl⟩
      | 1, _ => exact ⟨"refused-1", rfl⟩)

/-- C6: when rule resolution fails, or returns an empty candidate list, the
client receives 503 and no dial or round trip is attempted, on both the
CONNECT path and the forwarding path. -/
theorem resolution_failure_empty_list_503 (rq : ConnReq)
    (dial : Nat → String → Except String Nat) (hsup : Bool)
    (hij : Except String Nat) (e : String)
    (rt : Nat → List Nat → Nat × Except String Resp) (hq : HTTPReq)
    (e2 : String) :
    ((handleConnect ⟨fun _ => Except.error e, dial, hsup, hij⟩ rq).writes
        = [Write.statusLine 503, Write.bodyChunk (e ++ "\n")] ∧
      (handleConnect ⟨fun _ => Except.error e, dial, hsup, hij⟩ rq).dialedIdx
        = [] ∧
      (handleConnect ⟨fun _ => Except.error e, dial, hsup, hij⟩ rq).tunnel
        = none) ∧
    ((handleConnect ⟨fun _ => Except.ok [], dial, hsup, hij⟩ rq).writes
        = [Write.statusLine 503, Write.bodyChunk ("No Proxy Available" ++ "\n")] ∧
      (handleConnect ⟨fun _ => Except.ok [], dial, hsup, hij⟩ rq).dialedIdx
        = [] ∧
      (handleConnect ⟨fun _ => Except.ok [], dial, hsup, hij⟩ rq).tunnel
        = none) ∧
    ((handleHTTP ⟨fun _ => Except.error e2, rt⟩ hq).writes
        = [Write.statusLine 503, Write.bodyChunk (e2 ++ "\n")] ∧
      (handleHTTP ⟨fun _ => Except.error e2, rt⟩ hq).attempts = [] ∧
      (handleHTTP ⟨fun _ => Except.error e2, rt⟩ hq).forwarded = none) ∧
    ((handleHTTP ⟨fun _ => Except.ok [], rt⟩ hq).writes
        = [Write.statusLine 503, Write.bodyChunk ("No Proxy Available" ++ "\n")] ∧
      (handleHTTP ⟨fun _ => Except.ok [], rt⟩ hq).attempts = [] ∧
      (handleHTTP ⟨fun _ => Except.ok [], rt⟩ hq).forwarded = none) :=
  ⟨⟨rfl, rfl, rfl⟩, ⟨rfl, rfl, rfl⟩, ⟨rfl, rfl, rfl⟩, ⟨rfl, rfl, rfl⟩⟩

/-- C7: for a Direct or SOCKS winner a 200 status line is the first wire
write, and when the tunnel starts it is the only one written before it; for
an HTTP-forwarding winner no 200 status line is ever written. -/
theorem connect_status_line_shape (env1 env2 : ConnectEnv)
    (rq1 rq2 : ConnReq) (p1 p2 : Proxy)
    (h1 : (handleConnect env1 rq1).winner = some p1)
    (hcap1 : p1.cap = Capability.direct ∨ p1.cap = Capability.socksProxy)
    (h2 : (handleConnect env2 rq2).winner = some p2)
    (hcap2 : p2.cap = Capability.httpProxy) :
    (handleConnect env1 rq1).writes.head? = some (Write.statusLine 200) ∧
    ((handleConnect env1 rq1).tunnel.isSome →
      (handleConnect env1 rq1).writes = [Write.statusLine 200]) ∧
    Write.statusLine 200 ∉ (handleConnect env2 rq2).writes := by
  have hA : (handleConnect env1 rq1).writes.head? = some (Write.statusLine 200) ∧
      ((handleConnect env1 rq1).tunnel.isSome →
        (handleConnect env1 rq1).writes = [Write.statusLine 200]) := by
    rcases handleConnect_char env1 rq1 with ⟨m, hw, _, _⟩ | ⟨p, hw, hrest⟩
    · rw [h1] at hw; cases hw
    · rw [h1] at hw
      have hpp : p = p1 := (Option.some.inj hw).symm
      subst hpp
      rcases hrest with ⟨_, hsub⟩ | ⟨hnc, _⟩
      · rcases hsub with ⟨_, ht, hwr⟩ | ⟨e, _, ht, hwr⟩ | ⟨ht, hwr⟩
        · exact ⟨by rw [hwr]; rfl, fun hts => by rw [ht] at hts; simp at hts⟩
        · exact ⟨by rw [hwr]; rfl, fun hts => by rw [ht] at hts; simp at hts⟩
        · exact ⟨by rw [hwr]; rfl, fun _ => hwr⟩
      · exact absurd hcap1 hnc
  have hB : Write.statusLine 200 ∉ (handleConnect env2 rq2).writes := by
    rcases handleConnect_char env2 rq2 with ⟨m, hw, _, _⟩ | ⟨p, hw, hrest⟩
    · rw [h2] at hw; cases hw
    · rw [h2] at hw
      have hpp : p = p2 := (Option.some.inj hw).symm
      subst hpp
      rcases hrest with ⟨hcap, _⟩ | ⟨_, hsub⟩
      · rcases hcap with hcap | hcap <;> rw [hcap2] at hcap <;> cases hcap
      · rcases hsub with ⟨_, _, hwr⟩ | ⟨e, _, _, hwr⟩ | ⟨_, hwr⟩ <;>
          rw [hwr] <;> simp
  exact ⟨hA.1, hA.2, hB⟩

/-- C7 witness: the Direct winner writes 200 before its tunnel; the HTTP
winner writes no status line. -/
theorem connect_status_line_shape_witness :
    (handleConnect envDirectTunnel connReq443).writes.head?
        = some (Write.statusLine 200) ∧
    ((handleConnect envDirectTunnel connReq443).tunnel.isSome →
      (handleConnect envDirectTunnel connReq443).writes
        = [Write.statusLine 200]) ∧
    Write.statusLine 200 ∉ (handleConnect envHttpTunnel connReq443).writes :=
  connect_status_line_shape envDirectTunnel envHttpTunnel connReq443 connReq443
    ⟨Capability.direct⟩ ⟨Capability.httpProxy⟩ (by decide) (Or.inl rfl)
    (by decide) rfl

/-- C8: the URL handed to rule resolution omits the port segment exactly when
the CONNECT target port is the default HTTPS port 443, and carries the port
for every other port. -/
theorem connect_lookup_url_port_segment (env : ConnectEnv) (rq : ConnReq) :
    ((handleConnect env rq).lookupURL = "https://" ++ rq.host ++ "/"
        ↔ rq.port = "443") ∧
    (rq.port ≠ "443" →
      (handleConnect env rq).lookupURL
        = "https://" ++ rq.host ++ ":" ++ rq.port ++ "/") := by
  have hu := handleConnect_lookupURL env rq
  by_cases hp : rq.port = "443"
  · rw [hu, if_pos hp]
    exact ⟨⟨fun _ => hp, fun _ => rfl⟩, fun hn => absurd hp hn⟩
  · rw [hu, if_neg hp]
    refine ⟨⟨fun hEq => ?_, fun hc => absurd hc hp⟩, fun _ => rfl⟩
    exfalso
    have hL := congrArg String.length hEq
    simp only [String.length_append] at hL
    have c1 : (":" : String).length = 1 := rfl
    have c2 : ("/" : String).length = 1 := rfl
    rw [c1, c2] at hL
    omega

/-- C9: the header sanitizer is idempotent — applying prune twice yields the
same header collection as applying it once (the sanitizer is total, and the
in-place mutation of the source is rendered as a pure header-to-header
function). -/
theorem prune_idempotent (h : Header) : prune (prune h) = prune h := by
  show removeHopHeaders (removeConnectionHeaders (prune h)) = prune h
  rw [removeConnectionHeaders_prune, removeHopHeaders_prune]

/-- C4 counterexample: prune keeps X-Bar although it is named in the
Connection header value list (its second value), keeps a Te header whose
value is trailers plus a second value gzip, and keeps the fixed name Upgrade
because its value is the empty string — refuting the literal claim on one
header collection. -/
theorem prune_sanitizer_counterexample :
    prune hdrMultiValued
      = [("X-Bar", ["1"]), ("Te", ["trailers", "gzip"]), ("Upgrade", [""])] ∧
    hContains (prune hdrMultiValued) "Upgrade" = true ∧
    hContains (prune hdrMultiValued) "X-Bar" = true ∧
    ("Te", ["trailers", "gzip"]) ∈ prune hdrMultiValued := by
  decide

/-- C4 (amended): for a well-formed header collection — canonical keys, at
least one value per name, no empty value strings — prune removes every header
named in the comma-list of the first Connection value; of the fixed hop names
only Te can remain, and it remains exactly when its first value after the
Connection pass is the string trailers, in which case the whole Te entry
(all its values) is preserved. -/
theorem prune_sanitizer_amended (h : Header)
    (_hkeys : ∀ e ∈ h, canonicalKey e.1 = e.1)
    (hvals : ∀ e ∈ h, e.2 ≠ [] ∧ ∀ v ∈ e.2, v ≠ "") :
    (∀ tok ∈ splitComma (hGet h "Connection"), trimSpace tok ≠ "" →
      hContains (prune h) (trimSpace tok) = false) ∧
    (∀ k ∈ hopHeaders, k ≠ "Te" → hContains (prune h) k = false) ∧
    (hContains (prune h) "Te" = true →
      hGet (removeConnectionHeaders h) "Te" = "trailers") ∧
    (hGet (removeConnectionHeaders h) "Te" = "trailers" →
      (prune h).filter (fun e => e.1 == "Te")
        = (removeConnectionHeaders h).filter (fun e => e.1 == "Te")) := by
  have hfv : ∀ e ∈ removeConnectionHeaders h, firstVal e.2 ≠ "" := by
    intro e he
    have hmem : e ∈ h := by
      rw [removeConnectionHeaders_eq_filter] at he
      exact (List.mem_filter.mp he).1
    obtain ⟨hnil, hvv⟩ := hvals e hmem
    cases hval : e.2 with
    | nil => exact absurd hval hnil
    | cons v vs =>
      show firstVal (v :: vs) ≠ ""
      exact hvv v (hval ▸ List.mem_cons_self _ _)
  have hprfilter : prune h = (removeConnectionHeaders h).filter
      (fun x => hopKeep (removeConnectionHeaders h) x.1) :=
    removeHopHeaders_eq_filter (removeConnectionHeaders h)
  refine ⟨?_, ?_, ?_, ?_⟩
  · intro tok htok hne
    have hconn : hContains (removeConnectionHeaders h) (trimSpace tok) = false := by
      rw [removeConnectionHeaders_eq_filter,
        hContains_filter_key (connKeep h) h (trimSpace tok)]
      have hck : connKeep h (canonicalKey (trimSpace tok)) = false := by
        by_contra hA
        rw [Bool.not_eq_false] at hA
        have hcj := (List.all_eq_true.mp hA) tok htok
        simp [hne] at hcj
      rw [hck]
      rfl
    rw [hprfilter, hContains_filter_key
      (fun x => hopKeep (removeConnectionHeaders h) x) _ (trimSpace tok), hconn]
    simp
  · intro k hk hkne
    rw [hprfilter, hContains_filter_key
      (fun x => hopKeep (removeConnectionHeaders h) x) _ k, hop_canonical k hk]
    by_cases hc1 : hContains (removeConnectionHeaders h) k = true
    · have hval : hGet (removeConnectionHeaders h) k ≠ "" :=
        hGet_ne_of_contains (removeConnectionHeaders h) hfv k hc1
      have hkf : hopKeep (removeConnectionHeaders h) k = false := by
        by_contra hA
        rw [Bool.not_eq_false] at hA
        have hcj := (List.all_eq_true.mp hA) k hk
        have hb1 : (k != k) = false := by simp
        have hb2 : (hGet (removeConnectionHeaders h) k == "") = false := by
          simpa using hval
        have hb3 : (k == "Te") = false := by simpa using hkne
        rw [hb1, hb2, hb3] at hcj
        simp at hcj
      rw [hkf]
      rfl
    · have hc0 : hContains (removeConnectionHeaders h) k = false := by
        simpa using hc1
      rw [hc0]
      simp
  · intro hcte
    rw [hprfilter, hContains_filter_key
      (fun x => hopKeep (removeConnectionHeaders h) x) _ "Te",
      show canonicalKey "Te" = "Te" from by decide] at hcte
    obtain ⟨hkeeps, hcont⟩ := (Bool.and_eq_true _ _).mp hcte
    have hval : hGet (removeConnectionHeaders h) "Te" ≠ "" :=
      hGet_ne_of_contains (removeConnectionHeaders h) hfv "Te" hcont
    have hcj := (List.all_eq_true.mp hkeeps) "Te" (by decide)
    have hb1 : (("Te" : String) != "Te") = false := by simp
    have hb2 : (hGet (removeConnectionHeaders h) "Te" == "") = false := by
      simpa using hval
    have hb3 : (("Te" : String) == "Te") = true := by decide
    rw [hb1, hb2, hb3] at hcj
    simp at hcj
    exact hcj
  · intro htr
    rw [hprfilter, List.filter_filter]
    apply List.filter_congr
    intro e _
    by_cases hte : (e.1 == "Te") = true
    · rw [hte]
      simp only [Bool.true_and]
      rw [eq_of_beq hte]
      apply List.all_eq_true.mpr
      intro q hq
      by_cases hqte : q = "Te"
      · subst hqte
        simp [htr]
      · have hb : (("Te" : String) != q) = true := by
          simpa using fun hh : "Te" = q => hqte hh.symm
        simp [hb]
    · have hbf : (e.1 == "Te") = false := by simpa using hte
      rw [hbf]
      simp

/-- C4 witness: a well-formed header on which the amended sanitizer claim is
instantiated concretely. -/
theorem prune_sanitizer_amended_witness :
    (∀ tok ∈ splitComma (hGet hdrWellFormed "Connection"), trimSpace tok ≠ "" →
      hContains (prune hdrWellFormed) (trimSpace tok) = false) ∧
    (∀ k ∈ hopHeaders, k ≠ "Te" →
      hContains (prune hdrWellFormed) k = false) ∧
    (hContains (prune hdrWellFormed) "Te" = true →
      hGet (removeConnectionHeaders hdrWellFormed) "Te" = "trailers") ∧
    (hGet (removeConnectionHeaders hdrWellFormed) "Te" = "trailers" →
      (prune hdrWellFormed).filter (fun e => e.1 == "Te")
        = (removeConnectionHeaders hdrWellFormed).filter
            (fun e => e.1 == "Te")) :=
  prune_sanitizer_amended hdrWellFormed (by decide) (by decide)

/-- C10 (implicit): the forwarding path hands the same request object — and
so the same partially consumed body stream — to every round trip: when the
first candidate consumes c body bytes and fails, the second candidate
observes only the remaining bytes, which differ from the original body
whenever c is positive and the body nonempty. -/
theorem forwarding_body_not_rewound (henv : HTTPEnv) (rq : HTTPReq)
    (p0 p1 : Proxy) (rest : List Proxy) (c : Nat) (e : String)
    (hfp : henv.findProxy rq.url = Except.ok (p0 :: p1 :: rest))
    (h0 : henv.roundTrip 0 rq.body = (c, Except.error e)) :
    (handleHTTP henv rq).attempts.head? = some (0, rq.body) ∧
    (handleHTTP henv rq).attempts[1]? = some (1, rq.body.drop c) ∧
    (0 < c → rq.body ≠ [] → rq.body.drop c ≠ rq.body) := by
  unfold handleHTTP
  rw [hfp]
  dsimp only
  have hstep : httpLoopAux henv.roundTrip (p0 :: p1 :: rest) 0 rq.body =
      { sentHeaders :=
          (httpLoopAux henv.roundTrip (p1 :: rest) 1 (rq.body.drop c)).sentHeaders,
        attempts := (0, rq.body) ::
          (httpLoopAux henv.roundTrip (p1 :: rest) 1 (rq.body.drop c)).attempts,
        forwarded :=
          (httpLoopAux henv.roundTrip (p1 :: rest) 1 (rq.body.drop c)).forwarded,
        respHeaders :=
          (httpLoopAux henv.roundTrip (p1 :: rest) 1 (rq.body.drop c)).respHeaders,
        writes :=
          (httpLoopAux henv.roundTrip (p1 :: rest) 1 (rq.body.drop c)).writes } := by
    rw [httpLoopAux.eq_2]
    dsimp only
    rw [show henv.roundTrip 0 rq.body = (c, Except.error e) from h0]
  rw [hstep]
  dsimp only
  refine ⟨rfl, ?_, ?_⟩
  · rw [List.getElem?_cons_succ, ← List.head?_eq_getElem?]
    exact httpLoopAux_head_attempt henv.roundTrip p1 rest 1 (rq.body.drop c)
  · intro hc hbody hEq
    have hL := congrArg List.length hEq
    rw [List.length_drop] at hL
    have hlen : 0 < rq.body.length := List.length_pos.mpr hbody
    omega

/-- C10 witness: the first candidate consumes three of five body bytes and
fails; the second observes the remaining two bytes. -/
theorem forwarding_body_not_rewound_witness :
    (handleHTTP ⟨fun _ => Except.ok [⟨Capability.httpProxy⟩, ⟨Capability.httpProxy⟩],
        rtFirstEats⟩ httpReqBody).attempts.head?
      = some (0, [10, 20, 30, 40, 50]) ∧
    (handleHTTP ⟨fun _ => Except.ok [⟨Capability.httpProxy⟩, ⟨Capability.httpProxy⟩],
        rtFirstEats⟩ httpReqBody).attempts[1]?
      = some (1, [40, 50]) ∧
    (0 < 3 → ([10, 20, 30, 40, 50] : List Nat) ≠ [] →
      ([10, 20, 30, 40, 50] : List Nat).drop 3 ≠ [10, 20, 30, 40, 50]) :=
  forwarding_body_not_rewound
    ⟨fun _ => Except.ok [⟨Capability.httpProxy⟩, ⟨Capability.httpProxy⟩],
      rtFirstEats⟩ httpReqBody
    ⟨Capability.httpProxy⟩ ⟨Capability.httpProxy⟩ [] 3 "upstream reset" rfl rfl

end Pacroxy
